import Mathlib

/-
Verification of the create2crunch pipeline layer (config_args.rs,
config_file.rs, process_config.rs, main.rs) against its specification.

Modelling conventions:
- Byte values are `Nat` (all source bytes are `u8`; no arithmetic overflows
  occur in the modelled code paths, values stay below 256 by construction).
- The file system is modelled as a total environment `env : String → String`
  mapping a target name to the content of its bin file under `bin_folder`
  (`ConfigFile::new` has already checked the files exist; `read_to_string`
  I/O failures are environmental and out of scope).
- keccak-256 (the external `alloy_primitives::keccak256`) and the cpu / gpu
  search engines (defined in the crate root, which is not part of the four
  source files) are abstract function parameters.
- `fs::write` / file-lock side effects of `process_config` are modelled as an
  event trace.
-/

set_option autoImplicit false

deriving instance DecidableEq for Except

namespace Crunch

/-- ASCII word character, the `\w` class of the placeholder regex
`\$\{(\w+)\}` in config_file.rs (the spec fixes `IDENT = [A-Za-z0-9_]+`). -/
def isWordChar (c : Char) : Bool :=
  c.isAlpha || c.isDigit || c = '_'

/-- Scanner state for the placeholder regex `\$\{(\w+)\}`. -/
inductive ScanState where
  | outside
  | dollar
  | inWord (acc : List Char)

/-- Left-to-right, leftmost, non-overlapping matching of the regex
`\$\{(\w+)\}` (the `captures_iter` loops of `validate_placeholders` and
`can_process` in config_file.rs), as a character-driven automaton. -/
def scanPH : ScanState → List Char → List String
  | _, [] => []
  | ScanState.outside, c :: cs =>
    if c = '$' then scanPH ScanState.dollar cs else scanPH ScanState.outside cs
  | ScanState.dollar, c :: cs =>
    if c = '{' then scanPH (ScanState.inWord []) cs
    else if c = '$' then scanPH ScanState.dollar cs
    else scanPH ScanState.outside cs
  | ScanState.inWord acc, c :: cs =>
    if isWordChar c then scanPH (ScanState.inWord (acc ++ [c])) cs
    else if c = '}' then
      match acc with
      | [] => scanPH ScanState.outside cs
      | _ :: _ => String.mk acc :: scanPH ScanState.outside cs
    else if c = '$' then scanPH ScanState.dollar cs
    else scanPH ScanState.outside cs

/-- The list of placeholder names referenced in a bin file, in order of
occurrence (what `captures_iter(&bin_content)` yields in config_file.rs). -/
def referencedPlaceholders (content : String) : List String :=
  scanPH ScanState.outside content.data

/-- Value of one hex digit, as decoded by the `const-hex` crate behind
`alloy_primitives::hex::decode`: 0-9, a-f, A-F; anything else is an error. -/
def hexDigitVal (c : Char) : Option Nat :=
  let n := c.toNat
  if 48 ≤ n ∧ n ≤ 57 then some (n - 48)
  else if 97 ≤ n ∧ n ≤ 102 then some (n - 87)
  else if 65 ≤ n ∧ n ≤ 70 then some (n - 55)
  else none

/-- Pairwise hex decoding: even length required, every character a hex
digit; whitespace is not accepted. -/
def hexDecodeCore : List Char → Option (List Nat)
  | [] => some []
  | [_] => none
  | c1 :: c2 :: rest =>
    match hexDigitVal c1, hexDigitVal c2, hexDecodeCore rest with
    | some h, some l, some bs => some ((h * 16 + l) :: bs)
    | _, _, _ => none

/-- `hex::decode` of the const-hex crate: an optional leading 0x prefix is
stripped, the rest must be an even-length string of hex digits. -/
def hexDecode (l : List Char) : Option (List Nat) :=
  match l with
  | c1 :: c2 :: rest =>
    if c1 = '0' ∧ c2 = 'x' then hexDecodeCore rest else hexDecodeCore l
  | _ => hexDecodeCore l

/-- Lowercase hex digit for a value below 16 (`hex::encode`). -/
def hexChar (n : Nat) : Char :=
  if n < 10 then Char.ofNat (48 + n) else Char.ofNat (87 + n)

/-- `hex::encode`: two lowercase hex digits per byte. -/
def hexEncode (bs : List Nat) : List Char :=
  bs.flatMap (fun b => [hexChar (b / 16), hexChar (b % 16)])

/-- When `pat` is a prefix of `s`, return the remainder of `s` after it. -/
def takeMatch : List Char → List Char → Option (List Char)
  | [], s => some s
  | _ :: _, [] => none
  | p :: ps, c :: cs => if c = p then takeMatch ps cs else none

/-- Fueled worker for `replaceAll`; the fuel is the length of the subject
string, enough because every replacement consumes at least one character
(the pattern is never empty in `to_run_config`). -/
def replaceAllFuel : Nat → List Char → List Char → List Char → List Char
  | 0, s, _, _ => s
  | fuel + 1, s, pat, rep =>
    match s with
    | [] => []
    | c :: cs =>
      match pat, takeMatch pat (c :: cs) with
      | _ :: _, some rest => rep ++ replaceAllFuel fuel rest pat rep
      | _, _ => c :: replaceAllFuel fuel cs pat rep

/-- Rust `str::replace`: replace every non-overlapping occurrence of `pat`
by `rep`, scanning left to right. -/
def replaceAll (s pat rep : List Char) : List Char :=
  replaceAllFuel s.length s pat rep

/-- Stop thresholds of one target (config_file.rs `StopThresholds`). -/
structure StopThresholds where
  leading_zeroes : Option Nat
  total_zeroes : Option Nat
deriving DecidableEq

/-- One pipeline target (config_file.rs `Target`). -/
structure Target where
  name : String
  placeholder_name : Option String
  stop_thresholds : Option StopThresholds
deriving DecidableEq

/-- Parsed configuration file (config_file.rs `ConfigFile`); the hex fields
have already been decoded by `ConfigFile::new`. -/
structure ConfigFile where
  bin_folder : String
  factory_address : List Nat
  calling_address : List Nat
  gpu_device : Nat
  targets : List Target
deriving DecidableEq

/-- Errors of `validate_placeholders`; `missingPlaceholder n` models the
string `Missing placeholder (n) in the target configuration` and
`circularDependency n` the string `Circular dependency detected for
placeholder (n)`. -/
inductive ValidateError where
  | missingPlaceholder (name : String)
  | circularDependency (name : String)
deriving DecidableEq

/-- Whether some target in the configuration defines placeholder `ph`
(the `self.targets.iter().any(...)` test of `validate_placeholders`). -/
def definesPH (targets : List Target) (ph : String) : Bool :=
  targets.any (fun t => t.placeholder_name = some ph)

/-- Inner loop of `validate_placeholders` over the captures of one target:
first the missing-definition check, then the self-reference check, in
source order. -/
def check_target_placeholders (allTargets : List Target) (t : Target) :
    List String → Except ValidateError Unit
  | [] => Except.ok ()
  | ph :: rest =>
    if definesPH allTargets ph then
      if t.placeholder_name = some ph then
        Except.error (ValidateError.circularDependency ph)
      else check_target_placeholders allTargets t rest
    else Except.error (ValidateError.missingPlaceholder ph)

/-- Outer loop of `validate_placeholders` over all targets. -/
def validate_placeholders_aux (env : String → String) (allTargets : List Target) :
    List Target → Except ValidateError Unit
  | [] => Except.ok ()
  | t :: rest =>
    match check_target_placeholders allTargets t (referencedPlaceholders (env t.name)) with
    | Except.ok _ => validate_placeholders_aux env allTargets rest
    | Except.error e => Except.error e

/-- `ConfigFile::validate_placeholders` (config_file.rs lines 106-141). -/
def validate_placeholders (env : String → String) (cfg : ConfigFile) :
    Except ValidateError Unit :=
  validate_placeholders_aux env cfg.targets cfg.targets

/-- Error of `validate_stop_points`: the target has no stop point. -/
inductive StopPointsError where
  | noStopPoints (targetName : String)
deriving DecidableEq

/-- Worker of `validate_stop_points` over the target list. -/
def validate_stop_points_aux : List Target → Except StopPointsError Unit
  | [] => Except.ok ()
  | t :: rest =>
    match t.stop_thresholds with
    | none => Except.error (StopPointsError.noStopPoints t.name)
    | some st =>
      if st.leading_zeroes.isNone && st.total_zeroes.isNone then
        Except.error (StopPointsError.noStopPoints t.name)
      else validate_stop_points_aux rest

/-- `ConfigFile::validate_stop_points` (config_file.rs lines 144-163). -/
def validate_stop_points (cfg : ConfigFile) : Except StopPointsError Unit :=
  validate_stop_points_aux cfg.targets

/-- The validation part of `ConfigFile::new`: TOML parsing, hex decoding of
the two addresses and the bin-file existence checks are environmental and
already reflected in the `ConfigFile` / `env` model; what remains of `new`
is `validate_stop_points` followed by `validate_placeholders`. -/
def configFileValidationOk (env : String → String) (cfg : ConfigFile) : Bool :=
  (match validate_stop_points cfg with
   | Except.ok _ => true
   | Except.error _ => false)
  && (match validate_placeholders env cfg with
      | Except.ok _ => true
      | Except.error _ => false)

/-- Modelled from the spec: `RunConfig` is defined in the crate root
(lib.rs), which is not among the four source files. Spec section 3: factory
address, calling address, init-code hash, the two thresholds, and the
early-stop flag. -/
structure RunConfig where
  factory_address : List Nat
  calling_address : List Nat
  init_code_hash : List Nat
  leading_zeroes_threshold : Nat
  total_zeroes_threshold : Nat
  early_stop : Bool
deriving DecidableEq

/-- Modelled from the spec: the candidate record produced by the cpu / gpu
engines (crate root, not among the four source files). Spec section 3:
salt, address, leading, total, and an integer reward. -/
structure Candidate where
  salt : List Nat
  address : List Nat
  reward : Nat
  leading : Nat
  total : Nat
deriving DecidableEq

/-- Substitute every computed placeholder into the bin content: the
`for (placeholder, value) in placeholders` replace loop of `to_run_config`.
The `HashMap` iteration order is unspecified in Rust; the model fixes the
association-list order. -/
def substPlaceholders (content : List Char) (placeholders : List (String × List Nat)) :
    List Char :=
  placeholders.foldl
    (fun acc kv => replaceAll acc (('$' :: '{' :: kv.1.data) ++ ['}']) (hexEncode kv.2))
    content

/-- `ConfigFile::to_run_config` (config_file.rs lines 166-197). `keccak` is
the external keccak-256. The source unwraps the hex decoding and both stop
thresholds; `none` models any of those unwrap panics. -/
def to_run_config (keccak : List Nat → List Nat) (env : String → String)
    (cfg : ConfigFile) (target : Target) (placeholders : List (String × List Nat)) :
    Option RunConfig :=
  let bin_content := substPlaceholders (env target.name).data placeholders
  match hexDecode bin_content with
  | none => none
  | some hex_bin =>
    let init_hash := keccak hex_bin
    match target.stop_thresholds with
    | none => none
    | some st =>
      match st.leading_zeroes, st.total_zeroes with
      | some lz, some tz =>
        some
          { factory_address := cfg.factory_address
            calling_address := cfg.calling_address
            init_code_hash := init_hash
            leading_zeroes_threshold := lz
            total_zeroes_threshold := tz
            early_stop := true }
      | _, _ => none

/-- `ConfigFile::can_process` (config_file.rs lines 200-215): every
placeholder referenced in the bin file must be present in the computed
addresses map. -/
def can_process (env : String → String) (cfg : ConfigFile) (target : Target)
    (placeholders : List (String × List Nat)) : Bool :=
  (referencedPlaceholders (env target.name)).all
    (fun ph => placeholders.any (fun kv => kv.1 = ph))

/-- `HashMap::insert` on the association-list model of
`computed_addresses`: replace an existing binding or append a new one. -/
def insertAssoc (k : String) (v : List Nat) :
    List (String × List Nat) → List (String × List Nat)
  | [] => [(k, v)]
  | kv :: rest => if kv.1 = k then (k, v) :: rest else kv :: insertAssoc k v rest

/-- Observable file-system / engine events of one `process_config` run
(process_config.rs): advisory lock and unlock of the output file, the three
kinds of writes to it, and the invocation of a mining engine. Timestamps in
the Start / End lines are environmental and not modelled. -/
inductive Event where
  | lock
  | unlock
  | writeStart
  | writeRecord (targetName : String) (initHash : List Nat) (best : Candidate)
  | writeEnd
  | mine (targetName : String)
deriving DecidableEq

/-- Result of a `process_config` run: normal return, an `Err` return with
its message, or a panic (an `unwrap` / `expect` failure). -/
inductive Outcome where
  | ok
  | err (msg : String)
  | panic
deriving DecidableEq

/-- `Iterator::max_by_key` on the reward: `None` on an empty list; when
several candidates have the maximal reward, Rust returns the last one. -/
def max_by_key_reward : List Candidate → Option Candidate
  | [] => none
  | c :: cs =>
    match max_by_key_reward cs with
    | none => some c
    | some m => if c.reward > m.reward then some c else some m

/-- Result of one scan pass of `process_config` over the remaining targets:
either the run aborts (engine error or panic) after the recorded events, or
the pass completes with its events, the targets still remaining (in order)
and the updated computed addresses. -/
inductive PassResult where
  | aborted (events : List Event) (out : Outcome)
  | done (events : List Event) (remaining : List Target)
      (computed : List (String × List Nat))
deriving DecidableEq

/-- One iteration of the `for (i, target) in remaining_targets` loop of
`process_config` (process_config.rs lines 39-87): test `can_process`, build
the `RunConfig`, run the cpu engine when `gpu_device == 255` and the gpu
engine otherwise, persist the highest-reward candidate under the file lock,
and record the computed address. `computed_addresses` is updated inside the
pass, so later targets of the same pass already see it. -/
def run_pass (keccak : List Nat → List Nat) (env : String → String)
    (cpuE : RunConfig → Except String (List Candidate))
    (gpuE : RunConfig → Nat → Except String (List Candidate))
    (cfg : ConfigFile) :
    List Target → List (String × List Nat) → PassResult
  | [], computed => PassResult.done [] [] computed
  | t :: rest, computed =>
    if can_process env cfg t computed then
      match to_run_config keccak env cfg t computed with
      | none => PassResult.aborted [] Outcome.panic
      | some rc =>
        match (if cfg.gpu_device = 255 then cpuE rc else gpuE rc cfg.gpu_device) with
        | Except.error e => PassResult.aborted [Event.mine t.name] (Outcome.err e)
        | Except.ok results =>
          match max_by_key_reward results with
          | none => PassResult.aborted [Event.mine t.name] Outcome.panic
          | some best =>
            let evs := [Event.mine t.name, Event.lock,
              Event.writeRecord t.name rc.init_code_hash best, Event.unlock]
            let computed2 :=
              match t.placeholder_name with
              | some pn => insertAssoc pn best.address computed
              | none => computed
            match run_pass keccak env cpuE gpuE cfg rest computed2 with
            | PassResult.aborted es out => PassResult.aborted (evs ++ es) out
            | PassResult.done es rem comp => PassResult.done (evs ++ es) rem comp
    else
      match run_pass keccak env cpuE gpuE cfg rest computed with
      | PassResult.aborted es out => PassResult.aborted es out
      | PassResult.done es rem comp => PassResult.done es (t :: rem) comp

/-- The `while !remaining_targets.is_empty()` loop of `process_config`
(process_config.rs lines 34-98). The fuel argument bounds the number of
passes; every pass that recurses strictly shrinks the remaining list, so
the fuel `remaining.length` used by `process_config` is never exhausted
(`process_config_loop_fuel` below), and the fuel-exhaustion branch is dead. -/
def process_config_loop (keccak : List Nat → List Nat) (env : String → String)
    (cpuE : RunConfig → Except String (List Candidate))
    (gpuE : RunConfig → Nat → Except String (List Candidate))
    (cfg : ConfigFile) :
    Nat → List Target → List (String × List Nat) → List Event × Outcome
  | _, [], _ => ([], Outcome.ok)
  | 0, _ :: _, _ => ([], Outcome.err ("Unable to process all targets"))
  | fuel + 1, t :: rest, computed =>
    match run_pass keccak env cpuE gpuE cfg (t :: rest) computed with
    | PassResult.aborted es out => (es, out)
    | PassResult.done es rem comp =>
      if rem.length = (t :: rest).length then
        (es, Outcome.err ("Unable to process all targets"))
      else
        let r := process_config_loop keccak env cpuE gpuE cfg fuel rem comp
        (es ++ r.1, r.2)

/-- `process_config` of process_config.rs (lines 12-111): write the Start
header under the lock, run the resolver loop, and on normal completion
write the End footer under the lock. -/
def process_config (keccak : List Nat → List Nat) (env : String → String)
    (cpuE : RunConfig → Except String (List Candidate))
    (gpuE : RunConfig → Nat → Except String (List Candidate))
    (cfg : ConfigFile) : List Event × Outcome :=
  let r := process_config_loop keccak env cpuE gpuE cfg cfg.targets.length cfg.targets []
  match r.2 with
  | Outcome.ok =>
    (Event.lock :: Event.writeStart :: Event.unlock ::
      (r.1 ++ [Event.lock, Event.writeEnd, Event.unlock]), Outcome.ok)
  | out => (Event.lock :: Event.writeStart :: Event.unlock :: r.1, out)

/-- The readiness test of the local `process_config` in main.rs (lines
80-85): a target is considered processable when it has no
`placeholder_name`, or when its own `placeholder_name` is already a key of
`computed_addresses` (note: its own, not the placeholders it references). -/
def main_can_process (computed : List (String × String)) (t : Target) : Bool :=
  match t.placeholder_name with
  | some pn => computed.any (fun kv => kv.1 = pn)
  | none => true

/-- The local `process_config` of main.rs (lines 66-124), the function
`run_with_config_file` actually calls (main.rs never imports the one from
process_config.rs). Its whole mining block (lines 87-109) is commented out:
the loop evaluates `main_can_process` for each target but never pushes to
`processed_indices`, so a first pass over a non-empty target list makes no
progress and the function returns the no-progress error; with no targets
the loop body never runs and it returns `Ok(())`. -/
def main_process_config (targets : List Target) : Except String Unit :=
  match targets with
  | [] => Except.ok ()
  | _ :: _ => Except.error ("Unable to process all targets")

/-- `str::parse::<u8>()`: optional leading plus sign, then decimal digits;
errors on an empty digit string, a non-digit, or a value above 255. -/
def parse_u8 (s : String) : Option Nat :=
  let l :=
    match s.data with
    | '+' :: t => t
    | l => l
  if l = [] then none
  else if l.all Char.isDigit then
    let v := l.foldl (fun a c => a * 10 + (c.toNat - 48)) 0
    if v ≤ 255 then some v else none
  else none

/-- Parsed CLI configuration (config_args.rs `CliArgsConfig`). -/
structure CliArgsConfig where
  factory_address : List Nat
  calling_address : List Nat
  init_code_hash : List Nat
  gpu_device : Nat
  leading_zeroes_threshold : Nat
  total_zeroes_threshold : Nat
deriving DecidableEq

/-- Errors of `CliArgsConfig::new`, one constructor per message of
config_args.rs in source order. -/
inductive CliArgError where
  | noFactoryAddress
  | noCallingAddress
  | noInitCodeHash
  | badFactoryHex
  | badCallingHex
  | badInitCodeHashHex
  | badFactoryLen
  | badCallingLen
  | badInitCodeHashLen
  | badGpuDevice
  | badLeadingZeroes
  | badTotalZeroes
  | leadingZeroesOutOfRange
  | totalZeroesOutOfRange
deriving DecidableEq

/-- `CliArgsConfig::new` (config_args.rs lines 25-101): skip the program
name, take three required hex arguments and three optional numeric ones
(defaults 255 / 3 / 5), decode and length-check the hex values, parse the
numbers as `u8`, and reject `leading_zeroes_threshold > 20` as well as
`total_zeroes_threshold > 20 && != 255`. -/
def CliArgsConfig_new (args : List String) : Except CliArgError CliArgsConfig :=
  match args.drop 1 with
  | [] => Except.error CliArgError.noFactoryAddress
  | [_] => Except.error CliArgError.noCallingAddress
  | [_, _] => Except.error CliArgError.noInitCodeHash
  | fs :: cs :: hs :: optional =>
    let gs := (optional.get? 0).getD ("255")
    let ls := (optional.get? 1).getD ("3")
    let ts := (optional.get? 2).getD ("5")
    match hexDecode fs.data with
    | none => Except.error CliArgError.badFactoryHex
    | some fv =>
      match hexDecode cs.data with
      | none => Except.error CliArgError.badCallingHex
      | some cv =>
        match hexDecode hs.data with
        | none => Except.error CliArgError.badInitCodeHashHex
        | some hv =>
          if fv.length ≠ 20 then Except.error CliArgError.badFactoryLen
          else if cv.length ≠ 20 then Except.error CliArgError.badCallingLen
          else if hv.length ≠ 32 then Except.error CliArgError.badInitCodeHashLen
          else
            match parse_u8 gs with
            | none => Except.error CliArgError.badGpuDevice
            | some gpu =>
              match parse_u8 ls with
              | none => Except.error CliArgError.badLeadingZeroes
              | some lz =>
                match parse_u8 ts with
                | none => Except.error CliArgError.badTotalZeroes
                | some tz =>
                  if 20 < lz then Except.error CliArgError.leadingZeroesOutOfRange
                  else if 20 < tz ∧ tz ≠ 255 then
                    Except.error CliArgError.totalZeroesOutOfRange
                  else
                    Except.ok
                      { factory_address := fv
                        calling_address := cv
                        init_code_hash := hv
                        gpu_device := gpu
                        leading_zeroes_threshold := lz
                        total_zeroes_threshold := tz }

/-! Concrete fixtures used by the scenario theorems. -/

/-- A fixed stand-in for keccak-256: the concrete scenarios only need some
total hash function, its value is irrelevant to the control flow. -/
def kZero : List Nat → List Nat := fun _ => List.replicate 32 0

/-- A cpu engine stub that returns no candidate. -/
def cpu0 : RunConfig → Except String (List Candidate) := fun _ => Except.ok []

/-- A gpu engine stub that returns no candidate. -/
def gpu0 : RunConfig → Nat → Except String (List Candidate) := fun _ _ => Except.ok []

/-- A candidate with the zero address, used by engine stubs. -/
def cand0 : Candidate :=
  { salt := [1], address := List.replicate 20 0, reward := 40, leading := 2, total := 20 }

/-- A cpu engine stub that returns exactly one candidate. -/
def cpu1 : RunConfig → Except String (List Candidate) := fun _ => Except.ok [cand0]

/-- A configuration skeleton around a target list: factory and calling
address all-zero, cpu mining (`gpu_device = 255`). -/
def mkCfg (targets : List Target) : ConfigFile :=
  { bin_folder := "bin"
    factory_address := List.replicate 20 0
    calling_address := List.replicate 20 0
    gpu_device := 255
    targets := targets }

/-- Both-thresholds stop point used by targets that must mine successfully
(`to_run_config` unwraps both fields, see C2). -/
def stBoth : StopThresholds := { leading_zeroes := some 1, total_zeroes := some 1 }

/-- Scenario S3 target A: defines placeholder X, plain hex bin file. -/
def tA1 : Target := { name := "a", placeholder_name := some ("X"), stop_thresholds := some stBoth }

/-- Scenario S3 target B: references X. -/
def tB1 : Target := { name := "b", placeholder_name := none, stop_thresholds := some stBoth }

/-- Scenario S3 environment: target a is plain hex, target b references X. -/
def envAB : String → String := fun n =>
  if n = "a" then "aabb" else if n = "b" then "${X}" else ""

/-- Scenario S3 configuration with targets A then B. -/
def cfgAB : ConfigFile := mkCfg [tA1, tB1]

/-- C2 target: only the leading-zeroes stop threshold is set. -/
def tC2 : Target :=
  { name := "t2", placeholder_name := none
    stop_thresholds := some { leading_zeroes := some 3, total_zeroes := none } }

/-- C2 environment: a plain hex bin file. -/
def envC2 : String → String := fun _ => "aabb"

/-- C2 configuration. -/
def cfgC2 : ConfigFile := mkCfg [tC2]

/-- Two-cycle target A: defines A, references B. -/
def tCycA : Target := { name := "ca", placeholder_name := some ("A"), stop_thresholds := some stBoth }

/-- Two-cycle target B: defines B, references A. -/
def tCycB : Target := { name := "cb", placeholder_name := some ("B"), stop_thresholds := some stBoth }

/-- Two-cycle environment. -/
def envCyc : String → String := fun n =>
  if n = "ca" then "${B}" else if n = "cb" then "${A}" else ""

/-- Configuration whose placeholder-reference graph is a two-cycle. -/
def cfgCyc : ConfigFile := mkCfg [tCycA, tCycB]

/-- Self-loop target: defines S and references S in its own bin file. -/
def tSelf : Target := { name := "s", placeholder_name := some ("S"), stop_thresholds := some stBoth }

/-- Self-loop environment. -/
def envSelf : String → String := fun n => if n = "s" then "${S}" else ""

/-- Configuration with a self-referencing target. -/
def cfgSelf : ConfigFile := mkCfg [tSelf]

/-- C5 witness target: references a placeholder no target defines. -/
def tC5 : Target := { name := "t5", placeholder_name := none, stop_thresholds := some stBoth }

/-- C5 witness environment. -/
def envC5 : String → String := fun n => if n = "t5" then "${Q}" else ""

/-- C5 witness configuration: its only target can never become ready. -/
def cfgC5 : ConfigFile := mkCfg [tC5]

/-- C6 candidate persisted by the claim (higher leading, smaller salt). -/
def c1C6 : Candidate :=
  { salt := [1], address := List.replicate 20 0, reward := 10, leading := 5, total := 5 }

/-- C6 candidate persisted by the code (same reward, later in the list). -/
def c2C6 : Candidate :=
  { salt := [2], address := List.replicate 20 0, reward := 10, leading := 3, total := 5 }

/-- C6 engine stub returning two equal-reward candidates. -/
def cpuC6 : RunConfig → Except String (List Candidate) :=
  fun _ => Except.ok [c1C6, c2C6]

/-- C6 target. -/
def tC6 : Target := { name := "t6", placeholder_name := none, stop_thresholds := some stBoth }

/-- C6 environment. -/
def envC6 : String → String := fun _ => "aabb"

/-- C6 configuration. -/
def cfgC6 : ConfigFile := mkCfg [tC6]

/-- C7 target: leading-zeroes threshold 30, above the CLI bound of 20. -/
def tC7 : Target :=
  { name := "t7", placeholder_name := none
    stop_thresholds := some { leading_zeroes := some 30, total_zeroes := some 8 } }

/-- C7 environment. -/
def envC7 : String → String := fun _ => "aabb"

/-- C7 configuration. -/
def cfgC7 : ConfigFile := mkCfg [tC7]

/-- Forty hex characters, a well-formed 20-byte address argument. -/
def hex40 : String := String.mk (List.replicate 40 'a')

/-- Sixty-four hex characters, a well-formed 32-byte hash argument. -/
def hex64 : String := String.mk (List.replicate 64 'a')

/-- A well-formed CLI argument vector (program name plus three hex args). -/
def argsW : List String := ["prog", hex40, hex40, hex64]

/-- The configuration `CliArgsConfig_new argsW` produces. -/
def cfgW : CliArgsConfig :=
  { factory_address := List.replicate 20 170
    calling_address := List.replicate 20 170
    init_code_hash := List.replicate 32 170
    gpu_device := 255
    leading_zeroes_threshold := 3
    total_zeroes_threshold := 5 }

/-- C8 target. -/
def tC8 : Target := { name := "t8", placeholder_name := none, stop_thresholds := some stBoth }

/-- C8 environment without trailing whitespace. -/
def envC8 : String → String := fun _ => "aabb"

/-- C8 environment whose bin file ends in a newline. -/
def envC8nl : String → String := fun _ => "aabb\n"

/-- C8 configuration. -/
def cfgC8 : ConfigFile := mkCfg [tC8]

/-- The run configuration `to_run_config` builds (under the hash stub
`kZero`) for a target whose substituted bin content is the four hex
characters aabb, with both stop thresholds set to 1. -/
def rcAabb : RunConfig :=
  { factory_address := List.replicate 20 0
    calling_address := List.replicate 20 0
    init_code_hash := List.replicate 32 0
    leading_zeroes_threshold := 1
    total_zeroes_threshold := 1
    early_stop := true }

/-- C9 witness configuration: no targets. -/
def cfgW9 : ConfigFile := mkCfg []

/-- C10 witness target. -/
def tP : Target := { name := "tp", placeholder_name := none, stop_thresholds := some stBoth }

/-- C10 witness environment. -/
def envP : String → String := fun _ => "aabb"

/-- C10 witness configuration. -/
def cfgP : ConfigFile := mkCfg [tP]

/-- Whether an event writes to the output file. -/
def isWriteEv : Event → Bool
  | Event.writeStart => true
  | Event.writeEnd => true
  | Event.writeRecord _ _ _ => true
  | _ => false

/-- Whether an event is the Start header or the End footer write. -/
def isStartEnd : Event → Bool
  | Event.writeStart => true
  | Event.writeEnd => true
  | _ => false

/-- The events of a pass result. -/
def passEvents : PassResult → List Event
  | PassResult.aborted es _ => es
  | PassResult.done es _ _ => es

/-- Traces of `process_config` decompose into blocks: a mining invocation
(performed without the lock), or a lock held for exactly one write and
released immediately after. -/
inductive Blocks : List Event → Prop where
  | nil : Blocks []
  | mine (n : String) {rest : List Event} :
      Blocks rest → Blocks (Event.mine n :: rest)
  | write {w : Event} {rest : List Event} :
      isWriteEv w = true → Blocks rest →
      Blocks (Event.lock :: w :: Event.unlock :: rest)

/-- The locking discipline of a trace: every lock acquisition is followed
immediately by a single write (never a mining operation) and then
immediately by the unlock, and every write is immediately preceded by the
lock acquisition and immediately followed by the release. -/
def WellLockedTrace (tr : List Event) : Prop :=
  (∀ pre post, tr = pre ++ Event.lock :: post →
    ∃ w post2, post = w :: Event.unlock :: post2 ∧ isWriteEv w = true ∧
      ∀ n, w ≠ Event.mine n)
  ∧ (∀ pre w post, tr = pre ++ w :: post → isWriteEv w = true →
      ∃ pre2 post2, pre = pre2 ++ [Event.lock] ∧ post = Event.unlock :: post2)

/-- Successful traces start with the locked Start write, end with the
locked End write, and write neither Start nor End in between. -/
def StartEndOnce (tr : List Event) : Prop :=
  ∃ mid, tr = Event.lock :: Event.writeStart :: Event.unlock ::
      (mid ++ [Event.lock, Event.writeEnd, Event.unlock])
    ∧ Event.writeStart ∉ mid ∧ Event.writeEnd ∉ mid

/-! Characterization of placeholder validation. -/

theorem check_target_placeholders_ok_iff (allT : List Target) (t : Target) :
    ∀ l : List String,
      check_target_placeholders allT t l = Except.ok () ↔
        ∀ ph ∈ l, definesPH allT ph = true ∧ t.placeholder_name ≠ some ph := by
  intro l
  induction l with
  | nil => simp [check_target_placeholders]
  | cons ph rest ih =>
    simp only [check_target_placeholders]
    by_cases hd : definesPH allT ph
    · by_cases hs : t.placeholder_name = some ph
      · simp [hd, hs]
      · simp [hd, hs, ih]
    · simp [hd]

theorem validate_placeholders_aux_ok_iff (env : String → String) (allT : List Target) :
    ∀ ts : List Target,
      validate_placeholders_aux env allT ts = Except.ok () ↔
        ∀ t ∈ ts,
          check_target_placeholders allT t (referencedPlaceholders (env t.name)) =
            Except.ok () := by
  intro ts
  induction ts with
  | nil => simp [validate_placeholders_aux]
  | cons t rest ih =>
    simp only [validate_placeholders_aux]
    cases hc : check_target_placeholders allT t (referencedPlaceholders (env t.name)) with
    | error e => simp [hc]
    | ok u =>
      cases u
      simp [hc, ih]

/-- A configuration passes placeholder validation exactly when every
referenced placeholder is defined by some target and no target references
its own placeholder. -/
theorem validate_placeholders_ok_iff (env : String → String) (cfg : ConfigFile) :
    validate_placeholders env cfg = Except.ok () ↔
      ∀ t ∈ cfg.targets, ∀ ph ∈ referencedPlaceholders (env t.name),
        definesPH cfg.targets ph = true ∧ t.placeholder_name ≠ some ph := by
  unfold validate_placeholders
  rw [validate_placeholders_aux_ok_iff]
  constructor
  · intro h t ht ph hph
    exact (check_target_placeholders_ok_iff cfg.targets t _).1 (h t ht) ph hph
  · intro h t ht
    exact (check_target_placeholders_ok_iff cfg.targets t _).2 (h t ht)

theorem check_target_placeholders_missing (allT : List Target) (t : Target) :
    ∀ l : List String, ∀ p,
      check_target_placeholders allT t l = Except.error (ValidateError.missingPlaceholder p) →
        p ∈ l ∧ definesPH allT p = false := by
  intro l
  induction l with
  | nil => intro p h; simp [check_target_placeholders] at h
  | cons ph rest ih =>
    intro p h
    simp only [check_target_placeholders] at h
    by_cases hd : definesPH allT ph
    · by_cases hs : t.placeholder_name = some ph
      · simp [hd, hs] at h
      · simp only [hd, hs, if_true, if_false, if_neg hs, if_pos hd] at h
        have := ih p h
        exact ⟨List.mem_cons_of_mem _ this.1, this.2⟩
    · simp only [if_neg hd] at h
      cases h
      exact ⟨List.mem_cons_self _ _, by simpa using hd⟩

theorem check_target_placeholders_circular (allT : List Target) (t : Target) :
    ∀ l : List String, ∀ p,
      check_target_placeholders allT t l = Except.error (ValidateError.circularDependency p) →
        p ∈ l ∧ t.placeholder_name = some p := by
  intro l
  induction l with
  | nil => intro p h; simp [check_target_placeholders] at h
  | cons ph rest ih =>
    intro p h
    simp only [check_target_placeholders] at h
    by_cases hd : definesPH allT ph
    · by_cases hs : t.placeholder_name = some ph
      · simp only [if_pos hd, if_pos hs] at h
        cases h
        exact ⟨List.mem_cons_self _ _, hs⟩
      · simp only [if_pos hd, if_neg hs] at h
        have := ih p h
        exact ⟨List.mem_cons_of_mem _ this.1, this.2⟩
    · simp [hd] at h

theorem validate_placeholders_aux_error (env : String → String) (allT : List Target) :
    ∀ ts : List Target, ∀ e,
      validate_placeholders_aux env allT ts = Except.error e →
        ∃ t ∈ ts,
          check_target_placeholders allT t (referencedPlaceholders (env t.name)) =
            Except.error e := by
  intro ts
  induction ts with
  | nil => intro e h; simp [validate_placeholders_aux] at h
  | cons t rest ih =>
    intro e h
    simp only [validate_placeholders_aux] at h
    cases hc : check_target_placeholders allT t (referencedPlaceholders (env t.name)) with
    | error e2 =>
      rw [hc] at h
      cases h
      exact ⟨t, List.mem_cons_self _ _, hc⟩
    | ok u =>
      cases u
      rw [hc] at h
      obtain ⟨t2, ht2, hc2⟩ := ih e h
      exact ⟨t2, List.mem_cons_of_mem _ ht2, hc2⟩

/-! Properties of the candidate selection, of a pass with no ready target,
of hex decoding, and of the loop fuel. -/

theorem max_by_key_reward_eq_none : ∀ l : List Candidate,
    max_by_key_reward l = none ↔ l = [] := by
  intro l
  cases l with
  | nil => simp [max_by_key_reward]
  | cons c cs =>
    simp only [max_by_key_reward]
    cases max_by_key_reward cs with
    | none => simp
    | some m =>
      by_cases h : c.reward > m.reward <;> simp [h]

theorem run_pass_skip_all (keccak : List Nat → List Nat) (env : String → String)
    (cpuE : RunConfig → Except String (List Candidate))
    (gpuE : RunConfig → Nat → Except String (List Candidate)) (cfg : ConfigFile) :
    ∀ ts computed, (∀ t ∈ ts, can_process env cfg t computed = false) →
      run_pass keccak env cpuE gpuE cfg ts computed = PassResult.done [] ts computed := by
  intro ts
  induction ts with
  | nil => intro computed _; rfl
  | cons t rest ih =>
    intro computed hall
    have hc : can_process env cfg t computed = false := hall t (List.mem_cons_self _ _)
    have hrest : ∀ u ∈ rest, can_process env cfg u computed = false :=
      fun u hu => hall u (List.mem_cons_of_mem _ hu)
    simp only [run_pass, hc, Bool.false_eq_true, if_false, ih computed hrest]

theorem hexDigitVal_of_whitespace (c : Char) (h : c.isWhitespace = true) :
    hexDigitVal c = none := by
  have h2 : c = ' ' ∨ c = '\t' ∨ c = '\r' ∨ c = '\n' := by
    simp only [Char.isWhitespace, decide_eq_true_eq, Bool.or_eq_true] at h
    tauto
  rcases h2 with h2 | h2 | h2 | h2 <;> subst h2 <;> decide

theorem hexDecodeCore_none_of_mem :
    ∀ n (l : List Char), l.length ≤ n → ∀ c ∈ l, hexDigitVal c = none →
      hexDecodeCore l = none := by
  intro n
  induction n with
  | zero =>
    intro l hl c hc _
    have hl0 : l = [] := List.length_eq_zero.mp (Nat.le_zero.mp hl)
    subst hl0
    simp at hc
  | succ n ih =>
    intro l hl c hc hd
    match l with
    | [] => simp at hc
    | [a] => rfl
    | a :: b :: rest =>
      rw [List.mem_cons, List.mem_cons] at hc
      simp only [hexDecodeCore]
      rcases hc with hc | hc | hc
      · rw [hc] at hd
        rw [hd]
      · rw [hc] at hd
        rw [hd]
        cases hexDigitVal a <;> cases hexDecodeCore rest <;> rfl
      · have hrest : hexDecodeCore rest = none := by
          apply ih rest _ c hc hd
          simp only [List.length_cons] at hl
          omega
        rw [hrest]
        cases hexDigitVal a <;> cases hexDigitVal b <;> rfl

theorem hexDecode_none_of_whitespace (l : List Char) (c : Char) (hm : c ∈ l)
    (hw : c.isWhitespace = true) : hexDecode l = none := by
  have hd : hexDigitVal c = none := hexDigitVal_of_whitespace c hw
  have hcore : ∀ l2 : List Char, c ∈ l2 → hexDecodeCore l2 = none :=
    fun l2 hm2 => hexDecodeCore_none_of_mem l2.length l2 le_rfl c hm2 hd
  match l with
  | [] => simp at hm
  | [a] =>
    show hexDecodeCore [a] = none
    rfl
  | a :: b :: rest =>
    show (if a = '0' ∧ b = 'x' then hexDecodeCore rest else hexDecodeCore (a :: b :: rest)) = none
    rw [List.mem_cons, List.mem_cons] at hm
    by_cases hpre : a = '0' ∧ b = 'x'
    · rw [if_pos hpre]
      apply hcore
      rcases hm with hm | hm | hm
      · rw [hm, hpre.1] at hw
        exact absurd hw (by decide)
      · rw [hm, hpre.2] at hw
        exact absurd hw (by decide)
      · exact hm
    · rw [if_neg hpre]
      apply hcore
      rw [List.mem_cons, List.mem_cons]
      exact hm

theorem run_pass_done_length (keccak : List Nat → List Nat) (env : String → String)
    (cpuE : RunConfig → Except String (List Candidate))
    (gpuE : RunConfig → Nat → Except String (List Candidate)) (cfg : ConfigFile) :
    ∀ ts computed es rem comp,
      run_pass keccak env cpuE gpuE cfg ts computed = PassResult.done es rem comp →
        rem.length ≤ ts.length := by
  intro ts
  induction ts with
  | nil =>
    intro computed es rem comp h
    cases h
    simp
  | cons t rest ih =>
    intro computed es rem comp h
    simp only [run_pass] at h
    by_cases hc : can_process env cfg t computed = true
    · rw [if_pos hc] at h
      cases hrc : to_run_config keccak env cfg t computed with
      | none =>
        simp only [hrc] at h
        exact PassResult.noConfusion h
      | some rc =>
        simp only [hrc] at h
        cases hres : (if cfg.gpu_device = 255 then cpuE rc else gpuE rc cfg.gpu_device) with
        | error e =>
          simp only [hres] at h
          exact PassResult.noConfusion h
        | ok results =>
          simp only [hres] at h
          cases hmax : max_by_key_reward results with
          | none =>
            simp only [hmax] at h
            exact PassResult.noConfusion h
          | some best =>
            simp only [hmax] at h
            cases hrec : run_pass keccak env cpuE gpuE cfg rest
                (match t.placeholder_name with
                 | some pn => insertAssoc pn best.address computed
                 | none => computed) with
            | aborted es2 out =>
              simp only [hrec] at h
              exact PassResult.noConfusion h
            | done es2 rem2 comp2 =>
              simp only [hrec, PassResult.done.injEq] at h
              have := ih _ _ _ _ hrec
              rw [← h.2.1]
              simp only [List.length_cons]
              omega
    · rw [if_neg hc] at h
      cases hrec : run_pass keccak env cpuE gpuE cfg rest computed with
      | aborted es2 out =>
        simp only [hrec] at h
        exact PassResult.noConfusion h
      | done es2 rem2 comp2 =>
        simp only [hrec, PassResult.done.injEq] at h
        have := ih _ _ _ _ hrec
        simp only [List.length_cons]
        rw [← h.2.1]
        simp only [List.length_cons]
        omega

/-- The loop fuel is irrelevant as long as it is at least the number of
remaining targets; in particular the fuel `cfg.targets.length` used by
`process_config` faithfully models the unbounded `while` loop. -/
theorem process_config_loop_fuel (keccak : List Nat → List Nat) (env : String → String)
    (cpuE : RunConfig → Except String (List Candidate))
    (gpuE : RunConfig → Nat → Except String (List Candidate)) (cfg : ConfigFile) :
    ∀ f g remaining computed, remaining.length ≤ f → remaining.length ≤ g →
      process_config_loop keccak env cpuE gpuE cfg f remaining computed =
        process_config_loop keccak env cpuE gpuE cfg g remaining computed := by
  intro f
  induction f with
  | zero =>
    intro g remaining computed hf _
    have h0 : remaining = [] := List.length_eq_zero.mp (Nat.le_zero.mp hf)
    subst h0
    cases g <;> rfl
  | succ f ih =>
    intro g remaining computed hf hg
    cases remaining with
    | nil => cases g <;> rfl
    | cons t rest =>
      cases g with
      | zero => simp at hg
      | succ g2 =>
        simp only [process_config_loop]
        cases hp : run_pass keccak env cpuE gpuE cfg (t :: rest) computed with
        | aborted es out => rfl
        | done es rem comp =>
          have hle := run_pass_done_length keccak env cpuE gpuE cfg _ _ _ _ _ hp
          by_cases hlen : rem.length = (t :: rest).length
          · simp only [hlen, eq_self_iff_true, if_true]
          · have hlt : rem.length < (t :: rest).length := Nat.lt_of_le_of_ne hle hlen
            have h1 : rem.length ≤ f := by
              simp only [List.length_cons] at hf hlt
              omega
            have h2 : rem.length ≤ g2 := by
              simp only [List.length_cons] at hg hlt
              omega
            simp only [if_neg hlen, ih g2 rem comp h1 h2]

theorem blocks_append {a b : List Event} (ha : Blocks a) (hb : Blocks b) :
    Blocks (a ++ b) := by
  induction ha with
  | nil => simpa using hb
  | mine n h ih => exact Blocks.mine n ih
  | write hw h ih => exact Blocks.write hw ih

/-- Every pass produces a block-structured event list containing neither
the Start nor the End write. -/
theorem run_pass_events_blocks (keccak : List Nat → List Nat) (env : String → String)
    (cpuE : RunConfig → Except String (List Candidate))
    (gpuE : RunConfig → Nat → Except String (List Candidate)) (cfg : ConfigFile) :
    ∀ ts computed,
      Blocks (passEvents (run_pass keccak env cpuE gpuE cfg ts computed)) ∧
        ∀ e ∈ passEvents (run_pass keccak env cpuE gpuE cfg ts computed),
          isStartEnd e = false := by
  intro ts
  induction ts with
  | nil =>
    intro computed
    exact ⟨Blocks.nil, by simp [run_pass, passEvents]⟩
  | cons t rest ih =>
    intro computed
    simp only [run_pass]
    by_cases hc : can_process env cfg t computed = true
    · rw [if_pos hc]
      cases hrc : to_run_config keccak env cfg t computed with
      | none =>
        simp only [hrc, passEvents]
        exact ⟨Blocks.nil, by simp⟩
      | some rc =>
        simp only [hrc]
        cases hres : (if cfg.gpu_device = 255 then cpuE rc else gpuE rc cfg.gpu_device) with
        | error e =>
          simp only [hres, passEvents]
          refine ⟨Blocks.mine t.name Blocks.nil, ?_⟩
          intro ev hev
          simp only [List.mem_singleton] at hev
          subst hev
          rfl
        | ok results =>
          simp only [hres]
          cases hmax : max_by_key_reward results with
          | none =>
            simp only [hmax, passEvents]
            refine ⟨Blocks.mine t.name Blocks.nil, ?_⟩
            intro ev hev
            simp only [List.mem_singleton] at hev
            subst hev
            rfl
          | some best =>
            simp only [hmax]
            obtain ⟨ihb, ihse⟩ := ih
              (match t.placeholder_name with
               | some pn => insertAssoc pn best.address computed
               | none => computed)
            cases hrec : run_pass keccak env cpuE gpuE cfg rest
                (match t.placeholder_name with
                 | some pn => insertAssoc pn best.address computed
                 | none => computed) with
            | aborted es2 out =>
              rw [hrec] at ihb ihse
              simp only [passEvents] at ihb ihse
              simp only [hrec, passEvents, List.cons_append, List.nil_append]
              constructor
              · exact Blocks.mine t.name (Blocks.write rfl ihb)
              · intro ev hev
                simp only [List.mem_cons] at hev
                rcases hev with h1 | h1 | h1 | h1 | h1
                · subst h1; rfl
                · subst h1; rfl
                · subst h1; rfl
                · subst h1; rfl
                · exact ihse ev h1
            | done es2 rem comp =>
              rw [hrec] at ihb ihse
              simp only [passEvents] at ihb ihse
              simp only [hrec, passEvents, List.cons_append, List.nil_append]
              constructor
              · exact Blocks.mine t.name (Blocks.write rfl ihb)
              · intro ev hev
                simp only [List.mem_cons] at hev
                rcases hev with h1 | h1 | h1 | h1 | h1
                · subst h1; rfl
                · subst h1; rfl
                · subst h1; rfl
                · subst h1; rfl
                · exact ihse ev h1
    · rw [if_neg hc]
      obtain ⟨ihb, ihse⟩ := ih computed
      cases hrec : run_pass keccak env cpuE gpuE cfg rest computed with
      | aborted es2 out =>
        rw [hrec] at ihb ihse
        simp only [hrec, passEvents] at ihb ihse ⊢
        exact ⟨ihb, ihse⟩
      | done es2 rem comp =>
        rw [hrec] at ihb ihse
        simp only [hrec, passEvents] at ihb ihse ⊢
        exact ⟨ihb, ihse⟩

/-- The resolver loop produces a block-structured event list containing
neither the Start nor the End write. -/
theorem loop_events_blocks (keccak : List Nat → List Nat) (env : String → String)
    (cpuE : RunConfig → Except String (List Candidate))
    (gpuE : RunConfig → Nat → Except String (List Candidate)) (cfg : ConfigFile) :
    ∀ fuel remaining computed,
      Blocks (process_config_loop keccak env cpuE gpuE cfg fuel remaining computed).1 ∧
        ∀ e ∈ (process_config_loop keccak env cpuE gpuE cfg fuel remaining computed).1,
          isStartEnd e = false := by
  intro fuel
  induction fuel with
  | zero =>
    intro remaining computed
    cases remaining with
    | nil => exact ⟨Blocks.nil, by simp [process_config_loop]⟩
    | cons t rest => exact ⟨Blocks.nil, by simp [process_config_loop]⟩
  | succ fuel ih =>
    intro remaining computed
    cases remaining with
    | nil => exact ⟨Blocks.nil, by simp [process_config_loop]⟩
    | cons t rest =>
      simp only [process_config_loop]
      obtain ⟨hpb, hpse⟩ := run_pass_events_blocks keccak env cpuE gpuE cfg (t :: rest) computed
      cases hp : run_pass keccak env cpuE gpuE cfg (t :: rest) computed with
      | aborted es out =>
        rw [hp] at hpb hpse
        simpa only [passEvents] using ⟨hpb, hpse⟩
      | done es rem comp =>
        rw [hp] at hpb hpse
        simp only [passEvents] at hpb hpse
        by_cases hlen : rem.length = (t :: rest).length
        · simp only [hlen, eq_self_iff_true, if_true]
          exact ⟨hpb, hpse⟩
        · simp only [if_neg hlen]
          obtain ⟨hlb, hlse⟩ := ih rem comp
          refine ⟨blocks_append hpb hlb, ?_⟩
          intro e he
          rcases List.mem_append.mp he with he | he
          · exact hpse e he
          · exact hlse e he

theorem isWriteEv_ne_mine {w : Event} (hw : isWriteEv w = true) :
    ∀ n, w ≠ Event.mine n := by
  intro n he
  subst he
  simp [isWriteEv] at hw

theorem blocks_lock_bracket {tr : List Event} (h : Blocks tr) :
    ∀ pre post, tr = pre ++ Event.lock :: post →
      ∃ w post2, post = w :: Event.unlock :: post2 ∧ isWriteEv w = true := by
  induction h with
  | nil =>
    intro pre post heq
    cases pre <;> simp at heq
  | mine n h ih =>
    intro pre post heq
    cases pre with
    | nil => simp at heq
    | cons p pre2 =>
      rw [List.cons_append] at heq
      exact ih pre2 post (List.cons.inj heq).2
  | @write w rest hw h ih =>
    intro pre post heq
    cases pre with
    | nil =>
      simp only [List.nil_append] at heq
      exact ⟨w, rest, (List.cons.inj heq).2.symm, hw⟩
    | cons p pre2 =>
      cases pre2 with
      | nil =>
        simp only [List.cons_append, List.nil_append] at heq
        have h3 := List.cons.inj (List.cons.inj heq).2
        rw [h3.1] at hw
        simp [isWriteEv] at hw
      | cons q pre3 =>
        cases pre3 with
        | nil =>
          simp only [List.cons_append, List.nil_append] at heq
          have h4 := List.cons.inj (List.cons.inj (List.cons.inj heq).2).2
          exact absurd h4.1 (by simp)
        | cons r pre4 =>
          simp only [List.cons_append] at heq
          have h4 := List.cons.inj (List.cons.inj (List.cons.inj heq).2).2
          exact ih pre4 post h4.2

theorem blocks_write_bracket {tr : List Event} (h : Blocks tr) :
    ∀ pre w post, tr = pre ++ w :: post → isWriteEv w = true →
      ∃ pre2 post2, pre = pre2 ++ [Event.lock] ∧ post = Event.unlock :: post2 := by
  induction h with
  | nil =>
    intro pre w post heq _
    cases pre <;> simp at heq
  | mine n h ih =>
    intro pre w post heq hw
    cases pre with
    | nil =>
      simp only [List.nil_append] at heq
      rw [← (List.cons.inj heq).1] at hw
      simp [isWriteEv] at hw
    | cons p pre2 =>
      rw [List.cons_append] at heq
      obtain ⟨pre3, post2, hp3, hpost⟩ := ih pre2 w post (List.cons.inj heq).2 hw
      refine ⟨p :: pre3, post2, ?_, hpost⟩
      rw [hp3, List.cons_append]
  | @write w2 rest hw2 h ih =>
    intro pre w post heq hw
    cases pre with
    | nil =>
      simp only [List.nil_append] at heq
      rw [← (List.cons.inj heq).1] at hw
      simp [isWriteEv] at hw
    | cons p pre2 =>
      cases pre2 with
      | nil =>
        simp only [List.cons_append, List.nil_append] at heq
        have h2 := List.cons.inj heq
        have h3 := List.cons.inj h2.2
        refine ⟨[], rest, ?_, h3.2.symm⟩
        rw [List.nil_append, ← h2.1]
      | cons q pre3 =>
        cases pre3 with
        | nil =>
          simp only [List.cons_append, List.nil_append] at heq
          have h4 := List.cons.inj (List.cons.inj (List.cons.inj heq).2).2
          rw [← h4.1] at hw
          simp [isWriteEv] at hw
        | cons r pre4 =>
          simp only [List.cons_append] at heq
          have h4 := List.cons.inj (List.cons.inj (List.cons.inj heq).2).2
          obtain ⟨pre5, post2, hp5, hpost⟩ := ih pre4 w post h4.2 hw
          refine ⟨p :: q :: r :: pre5, post2, ?_, hpost⟩
          rw [hp5]
          simp only [List.cons_append]

theorem blocks_wellLocked {tr : List Event} (h : Blocks tr) : WellLockedTrace tr := by
  constructor
  · intro pre post heq
    obtain ⟨w, post2, hpost, hw⟩ := blocks_lock_bracket h pre post heq
    exact ⟨w, post2, hpost, hw, isWriteEv_ne_mine hw⟩
  · intro pre w post heq hw
    exact blocks_write_bracket h pre w post heq hw

/-- The full trace of `process_config` is block-structured. -/
theorem process_config_trace_blocks (keccak : List Nat → List Nat) (env : String → String)
    (cpuE : RunConfig → Except String (List Candidate))
    (gpuE : RunConfig → Nat → Except String (List Candidate)) (cfg : ConfigFile) :
    Blocks (process_config keccak env cpuE gpuE cfg).1 := by
  have hlb :=
    (loop_events_blocks keccak env cpuE gpuE cfg cfg.targets.length cfg.targets []).1
  simp only [process_config]
  cases ho : (process_config_loop keccak env cpuE gpuE cfg cfg.targets.length cfg.targets []).2 with
  | ok => exact Blocks.write rfl (blocks_append hlb (Blocks.write rfl Blocks.nil))
  | err m => exact Blocks.write rfl hlb
  | panic => exact Blocks.write rfl hlb

/-- A normally-terminating `process_config` writes the Start header first,
the End footer last, and neither of the two anywhere in between. -/
theorem process_config_start_end (keccak : List Nat → List Nat) (env : String → String)
    (cpuE : RunConfig → Except String (List Candidate))
    (gpuE : RunConfig → Nat → Except String (List Candidate)) (cfg : ConfigFile)
    (hok : (process_config keccak env cpuE gpuE cfg).2 = Outcome.ok) :
    StartEndOnce (process_config keccak env cpuE gpuE cfg).1 := by
  have hse :=
    (loop_events_blocks keccak env cpuE gpuE cfg cfg.targets.length cfg.targets []).2
  simp only [process_config] at hok ⊢
  cases ho : (process_config_loop keccak env cpuE gpuE cfg cfg.targets.length cfg.targets []).2 with
  | ok =>
    refine ⟨(process_config_loop keccak env cpuE gpuE cfg cfg.targets.length cfg.targets []).1,
      rfl, ?_, ?_⟩
    · intro hmem
      have := hse Event.writeStart hmem
      simp [isStartEnd] at this
    · intro hmem
      have := hse Event.writeEnd hmem
      simp [isStartEnd] at this
  | err m =>
    rw [ho] at hok
    simp at hok
  | panic =>
    rw [ho] at hok
    simp at hok

example : referencedPlaceholders ("${X}") = ["X"] := by decide
example : referencedPlaceholders ("aabb") = [] := by decide
example : hexDecode ("aabb".data) = some [170, 187] := by decide
example : hexDecode ("aabb\n".data) = none := by decide
example : can_process envAB cfgAB tA1 [] = true := by decide
example : can_process envAB cfgAB tB1 [] = false := by decide
example : validate_placeholders envCyc cfgCyc = Except.ok () := by decide
example : validate_placeholders envSelf cfgSelf =
    Except.error (ValidateError.circularDependency ("S")) := by decide
example : CliArgsConfig_new argsW = Except.ok cfgW := by decide

/-! The claim theorems. -/

/-- C1: the claim says that in pipeline mode a target is ready exactly when
all its referenced placeholders are computed, that ready targets are mined
in discovery order, and that for the two-target scenario (A defines X, B
uses X) the session mines A, then B, and completes successfully. The
binary路 behavior refutes this: `run_with_config_file` in main.rs calls the
local `main_process_config`, whose mining block is commented out, so the
scenario configuration fails with the no-progress error (first conjunct;
the third conjunct shows that even target A is not considered processable
by the local readiness test). The library function `process_config` of
process_config.rs — the evident intent — does mine A and then B and
completes successfully (second conjunct; both are mined within the first
pass because `computed_addresses` is updated during the pass). -/
theorem thm_C1 :
    main_process_config [tA1, tB1] = Except.error ("Unable to process all targets")
    ∧ process_config kZero envAB cpu1 gpu0 cfgAB =
        ([Event.lock, Event.writeStart, Event.unlock,
          Event.mine tA1.name, Event.lock,
          Event.writeRecord tA1.name (List.replicate 32 0) cand0, Event.unlock,
          Event.mine tB1.name, Event.lock,
          Event.writeRecord tB1.name (List.replicate 32 0) cand0, Event.unlock,
          Event.lock, Event.writeEnd, Event.unlock], Outcome.ok)
    ∧ main_can_process [] tA1 = false := by
  refine ⟨rfl, by decide, rfl⟩

/-- C2: the claim says every validated configuration yields a buildable
`RunConfig` for a ready target, in particular one that sets exactly one of
the two stop thresholds. The code refutes it: the configuration `cfgC2`
(single target, only `leading_zeroes` set) passes both validation steps of
`ConfigFile::new`, yet `to_run_config` panics — it unwraps both
`leading_zeroes` and `total_zeroes`, and the latter is `None` (modelled by
the `none` result), for every hash function. -/
theorem thm_C2 :
    validate_stop_points cfgC2 = Except.ok ()
    ∧ validate_placeholders envC2 cfgC2 = Except.ok ()
    ∧ ∀ keccak : List Nat → List Nat, to_run_config keccak envC2 cfgC2 tC2 [] = none := by
  refine ⟨by decide, by decide, ?_⟩
  intro keccak
  rfl

/-- C3 counterexample: the two-target configuration `cfgCyc`, whose
placeholder-reference graph is the two-cycle A → B → A, passes the whole
validation of `ConfigFile::new`, contradicting the claim that every cyclic
configuration fails validation. -/
theorem cex_C3 :
    configFileValidationOk envCyc cfgCyc = true
    ∧ referencedPlaceholders (envCyc tCycA.name) = [("B")]
    ∧ referencedPlaceholders (envCyc tCycB.name) = [("A")]
    ∧ tCycA.placeholder_name = some ("A")
    ∧ tCycB.placeholder_name = some ("B") := by decide

/-- C3 (amended): validation rejects only self-loops — a target whose bin
file references its own placeholder always fails `validate_placeholders` —
while cycles of length at least two pass validation and are only detected
at runtime, when a full resolver pass makes no progress and the session
fails with the no-progress error. -/
theorem thm_C3 :
    (∀ (env : String → String) (cfg : ConfigFile) (t : Target), t ∈ cfg.targets →
      (∃ p, t.placeholder_name = some p ∧ p ∈ referencedPlaceholders (env t.name)) →
      validate_placeholders env cfg ≠ Except.ok ())
    ∧ validate_placeholders envCyc cfgCyc = Except.ok ()
    ∧ process_config kZero envCyc cpu0 gpu0 cfgCyc =
        ([Event.lock, Event.writeStart, Event.unlock],
          Outcome.err ("Unable to process all targets")) := by
  refine ⟨?_, by decide, by decide⟩
  intro env cfg t ht hex hok
  obtain ⟨p, hp1, hp2⟩ := hex
  exact ((validate_placeholders_ok_iff env cfg).1 hok t ht p hp2).2 hp1

/-- C3 witness: the self-loop configuration `cfgSelf` instantiates the
general self-loop rejection of the amended claim. -/
theorem wit_C3 : validate_placeholders envSelf cfgSelf ≠ Except.ok () :=
  thm_C3.1 envSelf cfgSelf tSelf (by decide) ⟨"S", by decide, by decide⟩

/-- C4: placeholder validation succeeds iff every referenced placeholder is
defined by some target and no target references its own placeholder; a
failure is either a missing-placeholder error for a referenced placeholder
that no target defines, or a circular-dependency error for a placeholder a
target both defines and references. -/
theorem thm_C4 : ∀ (env : String → String) (cfg : ConfigFile),
    (validate_placeholders env cfg = Except.ok () ↔
      ∀ t ∈ cfg.targets, ∀ ph ∈ referencedPlaceholders (env t.name),
        definesPH cfg.targets ph = true ∧ t.placeholder_name ≠ some ph)
    ∧ (∀ p, validate_placeholders env cfg =
          Except.error (ValidateError.missingPlaceholder p) →
        definesPH cfg.targets p = false ∧
          ∃ t ∈ cfg.targets, p ∈ referencedPlaceholders (env t.name))
    ∧ (∀ p, validate_placeholders env cfg =
          Except.error (ValidateError.circularDependency p) →
        ∃ t ∈ cfg.targets, p ∈ referencedPlaceholders (env t.name) ∧
          t.placeholder_name = some p) := by
  intro env cfg
  refine ⟨validate_placeholders_ok_iff env cfg, ?_, ?_⟩
  · intro p h
    obtain ⟨t, ht, hc⟩ := validate_placeholders_aux_error env cfg.targets cfg.targets _ h
    have h2 := check_target_placeholders_missing cfg.targets t _ p hc
    exact ⟨h2.2, t, ht, h2.1⟩
  · intro p h
    obtain ⟨t, ht, hc⟩ := validate_placeholders_aux_error env cfg.targets cfg.targets _ h
    have h2 := check_target_placeholders_circular cfg.targets t _ p hc
    exact ⟨t, ht, h2.1, h2.2⟩

/-- C4 witness: the characterization instantiated at the self-loop
configuration. -/
theorem wit_C4 :
    (validate_placeholders envSelf cfgSelf = Except.ok () ↔
      ∀ t ∈ cfgSelf.targets, ∀ ph ∈ referencedPlaceholders (envSelf t.name),
        definesPH cfgSelf.targets ph = true ∧ t.placeholder_name ≠ some ph)
    ∧ (∀ p, validate_placeholders envSelf cfgSelf =
          Except.error (ValidateError.missingPlaceholder p) →
        definesPH cfgSelf.targets p = false ∧
          ∃ t ∈ cfgSelf.targets, p ∈ referencedPlaceholders (envSelf t.name))
    ∧ (∀ p, validate_placeholders envSelf cfgSelf =
          Except.error (ValidateError.circularDependency p) →
        ∃ t ∈ cfgSelf.targets, p ∈ referencedPlaceholders (envSelf t.name) ∧
          t.placeholder_name = some p) :=
  thm_C4 envSelf cfgSelf

/-- C5: whenever no remaining target is processable (and at least one
remains), the session returns the error result carrying the message
`Unable to process all targets` right after the Start header, instead of
looping forever — the model is a total function, so termination is
inherent. -/
theorem thm_C5 (keccak : List Nat → List Nat) (env : String → String)
    (cpuE : RunConfig → Except String (List Candidate))
    (gpuE : RunConfig → Nat → Except String (List Candidate)) (cfg : ConfigFile)
    (hne : cfg.targets ≠ [])
    (hall : ∀ t ∈ cfg.targets, can_process env cfg t [] = false) :
    process_config keccak env cpuE gpuE cfg =
      ([Event.lock, Event.writeStart, Event.unlock],
        Outcome.err ("Unable to process all targets")) := by
  obtain ⟨t, rest, hts⟩ := List.exists_cons_of_ne_nil hne
  have hpass := run_pass_skip_all keccak env cpuE gpuE cfg cfg.targets [] hall
  rw [hts] at hpass
  simp only [process_config, hts, List.length_cons, process_config_loop, hpass,
    eq_self_iff_true, if_true]

/-- C5 witness: the single-target configuration `cfgC5`, whose target
references an undefined placeholder, terminates with the no-progress
error. -/
theorem wit_C5 :
    process_config kZero envC5 cpu1 gpu0 cfgC5 =
      ([Event.lock, Event.writeStart, Event.unlock],
        Outcome.err ("Unable to process all targets")) :=
  thm_C5 kZero envC5 cpu1 gpu0 cfgC5 (by decide) (by decide)

/-- C6 counterexample: for the configuration `cfgC6` the engine returns the
two equal-reward candidates `c1C6` (leading 5, salt 1) and `c2C6` (leading
3, salt 2); the claim demands that the persisted record be `c1C6` (higher
leading, lexicographically smaller salt), but the session persists
`c2C6` — `max_by_key` keeps the last maximal element and applies no
tie-break. -/
theorem cex_C6 :
    process_config kZero envC6 cpuC6 gpu0 cfgC6 =
      ([Event.lock, Event.writeStart, Event.unlock, Event.mine tC6.name, Event.lock,
        Event.writeRecord tC6.name (List.replicate 32 0) c2C6, Event.unlock,
        Event.lock, Event.writeEnd, Event.unlock], Outcome.ok)
    ∧ c1C6.reward = c2C6.reward ∧ c2C6.leading < c1C6.leading
    ∧ c1C6.salt = [1] ∧ c2C6.salt = [2] := by decide

/-- C6 (amended): the persisted record is a maximal-reward candidate from
the engine result list, and among equal-reward candidates it is the one
occurring last in that list; leading-zero count and salt play no role in
the selection. -/
theorem thm_C6 : ∀ (l : List Candidate) (c : Candidate),
    max_by_key_reward l = some c →
      c ∈ l ∧ (∀ d ∈ l, d.reward ≤ c.reward) ∧
        ∃ pre post, l = pre ++ c :: post ∧ ∀ d ∈ post, d.reward < c.reward := by
  intro l
  induction l with
  | nil =>
    intro c h
    simp [max_by_key_reward] at h
  | cons x xs ih =>
    intro c h
    simp only [max_by_key_reward] at h
    cases hm : max_by_key_reward xs with
    | none =>
      simp only [hm] at h
      have hx : x = c := Option.some.inj h
      subst hx
      have hxs : xs = [] := (max_by_key_reward_eq_none xs).1 hm
      subst hxs
      exact ⟨List.mem_singleton_self x, by simp, [], [], rfl, by simp⟩
    | some m =>
      simp only [hm] at h
      by_cases hgt : x.reward > m.reward
      · rw [if_pos hgt] at h
        have hx : x = c := Option.some.inj h
        subst hx
        obtain ⟨hmem, hb, pre, post, heq, hlt⟩ := ih m hm
        refine ⟨List.mem_cons_self _ _, ?_, [], xs, rfl, ?_⟩
        · intro d hd
          rcases List.mem_cons.mp hd with hd | hd
          · rw [hd]
          · exact le_trans (hb d hd) (le_of_lt hgt)
        · intro d hd
          exact lt_of_le_of_lt (hb d hd) hgt
      · rw [if_neg hgt] at h
        obtain ⟨hmem, hb, pre, post, heq, hlt⟩ := ih m hm
        have hmc : m = c := Option.some.inj h
        subst hmc
        refine ⟨List.mem_cons_of_mem _ hmem, ?_, x :: pre, post, ?_, hlt⟩
        · intro d hd
          rcases List.mem_cons.mp hd with hd | hd
          · rw [hd]
            exact le_of_not_lt hgt
          · exact hb d hd
        · rw [List.cons_append, ← heq]

/-- C6 witness: the selection property instantiated on a singleton result
list. -/
theorem wit_C6 :
    c1C6 ∈ [c1C6] ∧ (∀ d ∈ [c1C6], d.reward ≤ c1C6.reward) ∧
      ∃ pre post, [c1C6] = pre ++ c1C6 :: post ∧ ∀ d ∈ post, d.reward < c1C6.reward :=
  thm_C6 [c1C6] c1C6 (by decide)

/-- C7 counterexample: the configuration-file path performs no numeric
bound check — `cfgC7`, whose target demands 30 leading zero bytes, passes
the whole validation of `ConfigFile::new` and the session proceeds to
mine it, contradicting the claim that such configurations are rejected at
configuration time in both paths. -/
theorem cex_C7 :
    tC7.stop_thresholds = some { leading_zeroes := some 30, total_zeroes := some 8 }
    ∧ configFileValidationOk envC7 cfgC7 = true
    ∧ process_config kZero envC7 cpu1 gpu0 cfgC7 =
        ([Event.lock, Event.writeStart, Event.unlock, Event.mine tC7.name, Event.lock,
          Event.writeRecord tC7.name (List.replicate 32 0) cand0, Event.unlock,
          Event.lock, Event.writeEnd, Event.unlock], Outcome.ok) := by decide

/-- C7 (amended): the CLI-argument path does reject the out-of-range
thresholds — every configuration `CliArgsConfig::new` accepts satisfies
`leading_zeroes_threshold ≤ 20` and `total_zeroes_threshold ≤ 20 ∨ = 255` —
but the TOML path checks only that at least one threshold is present
(`cfgC7` with leading threshold 30 passes `validate_stop_points`). -/
theorem thm_C7 :
    (∀ (args : List String) (cfg : CliArgsConfig),
      CliArgsConfig_new args = Except.ok cfg →
        cfg.leading_zeroes_threshold ≤ 20 ∧
          (cfg.total_zeroes_threshold ≤ 20 ∨ cfg.total_zeroes_threshold = 255))
    ∧ validate_stop_points cfgC7 = Except.ok ()
    ∧ validate_placeholders envC7 cfgC7 = Except.ok () := by
  refine ⟨?_, by decide, by decide⟩
  intro args cfg h
  obtain ⟨fa, ca, ihash, gd, lz, tz⟩ := cfg
  simp only [CliArgsConfig_new] at h
  repeat' split at h
  all_goals simp at h
  obtain ⟨-, -, -, -, hlz, htz⟩ := h
  subst hlz
  subst htz
  dsimp only
  constructor
  · omega
  · omega

/-- C7 witness: a well-formed CLI argument vector is accepted and its
thresholds satisfy the bounds. -/
theorem wit_C7 :
    cfgW.leading_zeroes_threshold ≤ 20 ∧
      (cfgW.total_zeroes_threshold ≤ 20 ∨ cfgW.total_zeroes_threshold = 255) :=
  thm_C7.1 argsW cfgW (by decide)

/-- C8 counterexample: the same bin content with and without a trailing
newline is processed differently — with the newline `hex::decode` fails and
`to_run_config` panics (modelled by `none`), without it the run
configuration is built; so whitespace is significant, contradicting the
claim. -/
theorem cex_C8 :
    to_run_config kZero envC8nl cfgC8 tC8 [] = none
    ∧ to_run_config kZero envC8 cfgC8 tC8 [] = some rcAabb
    ∧ envC8 tC8.name = ("aabb") ∧ envC8nl tC8.name = ("aabb\n") := by decide

/-- C8 (amended): whitespace in a bin file is significant and fatal — if
the substituted bin content contains any whitespace character (for example
a trailing newline), hex decoding fails and `to_run_config` aborts with a
panic instead of producing the same `init_code_hash`. -/
theorem thm_C8 : ∀ (keccak : List Nat → List Nat) (env : String → String)
    (cfg : ConfigFile) (t : Target) (phs : List (String × List Nat)),
    (∃ c ∈ substPlaceholders (env t.name).data phs, c.isWhitespace = true) →
    to_run_config keccak env cfg t phs = none := by
  intro keccak env cfg t phs hex
  obtain ⟨c, hmem, hws⟩ := hex
  have hnone := hexDecode_none_of_whitespace _ c hmem hws
  simp only [to_run_config, hnone]

/-- C8 witness: the amended claim instantiated at the newline-terminated
bin file. -/
theorem wit_C8 : to_run_config kZero envC8nl cfgC8 tC8 [] = none :=
  thm_C8 kZero envC8nl cfgC8 tC8 [] (by decide)

/-- C9: in every pipeline session, each write to the output file is
immediately preceded by the exclusive lock acquisition and immediately
followed by the release, every lock acquisition guards exactly one write
and never a mining operation, and a normally-terminating session writes
the Start header exactly once before all records and the End footer
exactly once after them. -/
theorem thm_C9 : ∀ (keccak : List Nat → List Nat) (env : String → String)
    (cpuE : RunConfig → Except String (List Candidate))
    (gpuE : RunConfig → Nat → Except String (List Candidate)) (cfg : ConfigFile),
    WellLockedTrace (process_config keccak env cpuE gpuE cfg).1 ∧
      ((process_config keccak env cpuE gpuE cfg).2 = Outcome.ok →
        StartEndOnce (process_config keccak env cpuE gpuE cfg).1) := by
  intro keccak env cpuE gpuE cfg
  exact ⟨blocks_wellLocked (process_config_trace_blocks keccak env cpuE gpuE cfg),
    process_config_start_end keccak env cpuE gpuE cfg⟩

/-- C9 witness: the locking discipline instantiated at the empty-target
configuration. -/
theorem wit_C9 :
    WellLockedTrace (process_config kZero envP cpu0 gpu0 cfgW9).1 ∧
      ((process_config kZero envP cpu0 gpu0 cfgW9).2 = Outcome.ok →
        StartEndOnce (process_config kZero envP cpu0 gpu0 cfgW9).1) :=
  thm_C9 kZero envP cpu0 gpu0 cfgW9

/-- C10: when the engine invoked for the first target of the session
returns an empty candidate list, the session ends in a panic (the `unwrap`
of `max_by_key` over an empty iterator) right after the mining event — not
in an error return, and without skipping the target. -/
theorem thm_C10 (keccak : List Nat → List Nat) (env : String → String)
    (cpuE : RunConfig → Except String (List Candidate))
    (gpuE : RunConfig → Nat → Except String (List Candidate)) (cfg : ConfigFile)
    (t : Target) (rest : List Target) (rc : RunConfig)
    (hts : cfg.targets = t :: rest)
    (hcan : can_process env cfg t [] = true)
    (hrc : to_run_config keccak env cfg t [] = some rc)
    (heng : (if cfg.gpu_device = 255 then cpuE rc else gpuE rc cfg.gpu_device) =
      Except.ok []) :
    process_config keccak env cpuE gpuE cfg =
      ([Event.lock, Event.writeStart, Event.unlock, Event.mine t.name],
        Outcome.panic) := by
  simp only [process_config, hts, List.length_cons, process_config_loop, run_pass,
    hcan, if_true, hrc, heng, max_by_key_reward]

/-- C10 witness: a session whose engine stub returns no candidate panics on
its first target. -/
theorem wit_C10 :
    process_config kZero envP cpu0 gpu0 cfgP =
      ([Event.lock, Event.writeStart, Event.unlock, Event.mine tP.name],
        Outcome.panic) :=
  thm_C10 kZero envP cpu0 gpu0 cfgP tP [] rcAabb (by decide) (by decide) (by decide)
    (by decide)

end Crunch
